import Mathlib

/-!
Verification of the hammer-irview design-hierarchy resolver, placement
constraint model and routing-grid alignment checker.

The definitions below are a shallow embedding of the Python sources under
`irv/`: `irv/ui/hierarchical/verilog_module.py`,
`irv/ui/hierarchical/placement_constraints.py` and (for the legacy
variant) `irv/ui/models/placement_constraints.py`.  Python `Decimal`
values are modelled as exact rationals, Python dictionaries as ordered
association lists, and Python `None` via `Option`.  Names follow the
source where Lean's lexical rules allow it.
-/

/-! ### Routing stackup and the per-layer alignment check
(`TechMetalLayer` in `verilog_module.py`) -/

/-- Routing direction of a metal layer, from hammer's `RoutingDirection`
(the external stackup library): horizontal, vertical, or redistribution
(a third value that is neither). -/
inductive RoutingDirection : Type where
  | horizontal
  | vertical
  | redistribution
deriving DecidableEq, Repr

/-- A metal layer record from a hammer stackup: name, preferred routing
direction, and pitch (exact decimal, modelled as a rational). -/
structure Metal : Type where
  name : String
  direction : RoutingDirection
  pitch : ℚ
deriving DecidableEq, Repr

/-- `TechMetalLayer.__init__`: wraps a stackup `Metal`; `self.dir` and
`self.name` mirror the metal's fields. -/
structure TechMetalLayer : Type where
  metal : Metal
deriving DecidableEq, Repr

/-- The `self.dir` attribute set in `TechMetalLayer.__init__`. -/
def TechMetalLayer.dir (l : TechMetalLayer) : RoutingDirection :=
  l.metal.direction

/-- Truncation toward zero, as used by Python `Decimal` division
underlying the `%` remainder. -/
def pyDecTrunc (q : ℚ) : ℤ :=
  if 0 ≤ q then ⌊q⌋ else ⌈q⌉

/-- Python `Decimal.__mod__`: remainder with truncated division
(`a - b * trunc(a / b)`).  Only used here with nonzero pitches; the
source raises on a zero divisor. -/
def decimalMod (a b : ℚ) : ℚ :=
  a - b * (pyDecTrunc (a / b) : ℚ)

/-- `TechMetalLayer.check_alignment(x, y, width, height)`: on a
horizontal layer, tests `x % pitch == 0 and (x + width) % pitch == 0`;
on a vertical layer the same for `y` and `y + height`; on any other
direction the Python function falls off the end and returns `None`. -/
def TechMetalLayer.check_alignment (l : TechMetalLayer) (x y width height : ℚ) :
    Option Bool :=
  let bb_xmax := x + width
  let bb_ymax := y + height
  if l.dir = RoutingDirection.horizontal then
    some (decide (decimalMod x l.metal.pitch = 0 ∧ decimalMod bb_xmax l.metal.pitch = 0))
  else if l.dir = RoutingDirection.vertical then
    some (decide (decimalMod y l.metal.pitch = 0 ∧ decimalMod bb_ymax l.metal.pitch = 0))
  else
    none

/-- Python truthiness of an optional boolean: `None` is falsy, so a
caller writing `if layer.check_alignment(...)` treats a missing verdict
exactly like `False`. -/
def pyTruthy : Option Bool → Bool
  | none => false
  | some b => b

/-- Modelled from the spec: the tri-state alignment verdict
`IRVAlignCheck`.  The enum is imported by `verilog_module.py` from
`irview.irv.ui.hierarchical.placement_constraints` but its definition is
missing from the source snapshot; the spec names the three states
ALIGNED, MISALIGNED and UNKNOWN. -/
inductive IRVAlignCheck : Type where
  | ALIGNED
  | MISALIGNED
  | UNKNOWN
deriving DecidableEq, Repr

/-- Modelled from the spec: `refresh_alignment`, the aggregate check
invoked by `VerilogModuleConstraintsModel` but missing from the source
snapshot.  Per the spec: UNKNOWN when no stackup data is attached;
otherwise collect the failing layers; ALIGNED when none fail, else
MISALIGNED with the full failing-layer set retained. -/
def refresh_alignment (layers : List TechMetalLayer) (x y width height : ℚ) :
    IRVAlignCheck × List TechMetalLayer :=
  if layers.isEmpty then (IRVAlignCheck.UNKNOWN, [])
  else
    let failing := layers.filter
      (fun l => l.check_alignment x y width height = some false)
    if failing.isEmpty then (IRVAlignCheck.ALIGNED, [])
    else (IRVAlignCheck.MISALIGNED, failing)

/-! ### Placement constraints: registry, deserialization and attachment
(`placement_constraints.py` and `VerilogModule.add_constraint`) -/

/-- Python `dict.get(key)` for an arbitrary key type. -/
def pyDictGet {κ α : Type} [DecidableEq κ] : List (κ × α) → κ → Option α
  | [], _ => none
  | (k, v) :: rest, key => if k = key then some v else pyDictGet rest key

/-- Python `d[key] = v` on a dict: replace in place when present, else
append. -/
def pyDictSet {κ α : Type} [DecidableEq κ] : List (κ × α) → κ → α → List (κ × α)
  | [], key, v => [(key, v)]
  | (k, w) :: rest, key, v =>
    if k = key then (k, v) :: rest else (k, w) :: pyDictSet rest key v

/-- Tags for the concrete constraint classes registered in
`PlacementConstraintManager.PLACEMENT_CONSTRAINT_TYPES` (the class
`ModuleHardMacro` is keyed by the string tag "hardmacro"). -/
inductive ConstraintKind : Type where
  | toplevel
  | hierarchical
  | obstruction
  | overlap
  | hardMacroKind
deriving DecidableEq, Repr

/-- A deserialized `ModuleConstraint` object, restricted to the fields the
claims are about: the hierarchical path, the bounding box and the class
tag.  `oid` models Python object identity (the source keys
`constraints_indices` by the constraint object itself). -/
structure ModuleConstraint : Type where
  oid : Nat
  path : String
  kind : ConstraintKind
  x : ℚ
  y : ℚ
  width : ℚ
  height : ℚ
deriving DecidableEq, Repr

/-- The constraint-holding slice of a `VerilogModule`: ordered path map,
append-only ordered list, object-keyed index map, TopLevel slot and
Hierarchical children (`VerilogModule.__init__`).  The back-reference
`constraint.module = self` set by `add_constraint` is arena-style and
carried implicitly. -/
structure VerilogModule : Type where
  name : String
  constraints : List (String × ModuleConstraint)
  constraints_list : List ModuleConstraint
  constraints_indices : List (ModuleConstraint × Nat)
  top_constraint : Option ModuleConstraint
  children : List ModuleConstraint
deriving DecidableEq, Repr

/-- `VerilogModule.add_constraint`: records the constraint under its path
(overwriting), appends to the ordered list and index map unconditionally,
and updates the TopLevel slot / Hierarchical children on the matching
class. -/
def VerilogModule.add_constraint (m : VerilogModule) (c : ModuleConstraint) :
    VerilogModule :=
  { m with
    constraints := pyDictSet m.constraints c.path c
    constraints_indices := pyDictSet m.constraints_indices c m.constraints_list.length
    constraints_list := m.constraints_list ++ [c]
    top_constraint :=
      if c.kind = ConstraintKind.toplevel then some c else m.top_constraint
    children :=
      if c.kind = ConstraintKind.hierarchical then m.children ++ [c] else m.children }

/-- A serialized placement-constraint record
(`vlsi.inputs.placement_constraints` entry).  `oid` is the identity the
constructor would give the resulting object. -/
structure YmlRecord : Type where
  oid : Nat
  path : String
  type : String
  x : ℚ
  y : ℚ
  width : ℚ
  height : ℚ
deriving DecidableEq, Repr

/-- The class registry `PLACEMENT_CONSTRAINT_TYPES`. -/
def PLACEMENT_CONSTRAINT_TYPES : List (String × ConstraintKind) :=
  [("hierarchical", ConstraintKind.hierarchical),
   ("toplevel", ConstraintKind.toplevel),
   ("obstruction", ConstraintKind.obstruction),
   ("hardmacro", ConstraintKind.hardMacroKind),
   ("overlap", ConstraintKind.overlap)]

/-- Python exceptions relevant to deserialization.
`typeErrorNoneNotCallable` is the `TypeError` raised by
`cls(yml, hierarchy)` when the registry lookup returned `None`.
`unknownConstraintType` is modelled from the spec: the failure mode named
`UnknownConstraintType` there; no such exception class exists anywhere in
the source. -/
inductive PyExc : Type where
  | typeErrorNoneNotCallable
  | unknownConstraintType
deriving DecidableEq, Repr

/-- `PlacementConstraintManager.deserialize(yml, hierarchy)`: reads the
declared type tag, looks the class up with `.get` and invokes the result;
an unregistered tag makes `cls` equal to `None`, so the call raises
`TypeError` rather than returning. -/
def PlacementConstraintManager.deserialize (yml : YmlRecord) :
    Except PyExc ModuleConstraint :=
  match pyDictGet PLACEMENT_CONSTRAINT_TYPES yml.type with
  | some kind =>
    Except.ok
      { oid := yml.oid, path := yml.path, kind := kind,
        x := yml.x, y := yml.y, width := yml.width, height := yml.height }
  | none => Except.error PyExc.typeErrorNoneNotCallable

/-- One iteration of the constraint loop in
`register_constraints_in_driver`: deserialize the record, then attach the
object via `add_constraint` on its module.  An exception propagates out
of the loop, leaving the module untouched. -/
def registerConstraintStep (m : VerilogModule) (yml : YmlRecord) :
    VerilogModule × Option PyExc :=
  match PlacementConstraintManager.deserialize yml with
  | Except.ok c => (m.add_constraint c, none)
  | Except.error e => (m, some e)

/-! ### Module and instance resolution
(`VerilogModuleHierarchy.parse_module_instances`) -/

/-- A `VerilogModule` object as seen by the resolver: its registered name.
`oid` models Python object identity, so that re-registration
(last-write-wins) can install a different object under the same name. -/
structure VMod : Type where
  name : String
  oid : Nat
deriving DecidableEq, Repr

/-- The physical footprint record of a LEF macro (the source attribute
`macro`, a hammer `MacroSize`; renamed `macroDef` here). -/
structure MacroSize : Type where
  c_size_x : ℚ
  c_size_y : ℚ
deriving DecidableEq, Repr

/-- An `IRVMacro` from the macro library (`hierarchical/lef.py`, whose
file is absent from the source snapshot; the spec describes the library
as an external collaborator supplying named physical macros). -/
structure IRVMacro : Type where
  name : String
  macroDef : MacroSize
deriving DecidableEq, Repr

/-- The `module` attribute of a `VerilogModuleInstance`: a resolved
`VerilogModule` object, a resolved `IRVMacro`, or still the raw type-name
string. -/
inductive InstTarget : Type where
  | resolvedMod (m : VMod)
  | resolvedMac (mac : IRVMacro)
  | pendingName (typeName : String)
deriving DecidableEq, Repr

/-- The resolution step applied to one instance's current target in
`parse_module_instances` (the `isinstance` cascade): a previously
resolved module is re-validated against the current module map
(`modules.get(name, name)` degrades to the bare name when gone); a macro
stays; a raw string is resolved through
`macro_library.get_macro(s) or modules.get(s, s)`.  The macro library is
an abstract name-to-macro map (spec section 4.3). -/
def resolveStep (modules : List (String × VMod))
    (lib : String → Option IRVMacro) : InstTarget → InstTarget
  | InstTarget.resolvedMod m =>
    match pyDictGet modules m.name with
    | some m2 => InstTarget.resolvedMod m2
    | none => InstTarget.pendingName m.name
  | InstTarget.resolvedMac mac => InstTarget.resolvedMac mac
  | InstTarget.pendingName s =>
    match lib s with
    | some mac => InstTarget.resolvedMac mac
    | none =>
      match pyDictGet modules s with
      | some m => InstTarget.resolvedMod m
      | none => InstTarget.pendingName s

/-- Python `set.add`. -/
def pySetAdd (s : List (String × String)) (p : String × String) :
    List (String × String) :=
  if p ∈ s then s else s ++ [p]

/-- Python `set.remove`, guarded by the source's membership test. -/
def pySetRemove (s : List (String × String)) (p : String × String) :
    List (String × String) :=
  s.filter (fun q => q ≠ p)

/-- The per-module state touched by `parse_module_instances`: the
module's `instances` dict (instance name, identified with the
`VerilogModuleInstance` object it holds, mapped to that object's `module`
attribute) and the hierarchy's `unknown_macros` pending index (keyed by
the name the source uses, with members identified by instance name). -/
structure HierState : Type where
  instances : List (String × InstTarget)
  unknown_macros : List (String × String)
deriving DecidableEq, Repr

/-- One iteration of the instance loop in `parse_module_instances` for a
regex hit `(inst_module_name, inst_name)`: look up or create the
instance (created Pending with the raw type name), apply the resolution
cascade, and maintain `unknown_macros`: the string branch first removes
the instance from `unknown_macros[inst_name]` if present, the macro
branch `continue`s, and a final check re-registers the instance under
`inst_name` whenever its target is still a bare string. -/
def parseOneInstance (modules : List (String × VMod))
    (lib : String → Option IRVMacro) (st : HierState)
    (inst_module_name inst_name : String) : HierState :=
  let tgt0 :=
    match pyDictGet st.instances inst_name with
    | some t => t
    | none => InstTarget.pendingName inst_module_name
  let t2 := resolveStep modules lib tgt0
  let unk1 :=
    match tgt0 with
    | InstTarget.pendingName _ => pySetRemove st.unknown_macros (inst_name, inst_name)
    | _ => st.unknown_macros
  let unk2 :=
    match tgt0, t2 with
    | InstTarget.resolvedMac _, _ => unk1
    | _, InstTarget.pendingName _ => pySetAdd unk1 (inst_name, inst_name)
    | _, _ => unk1
  { instances := pyDictSet st.instances inst_name t2, unknown_macros := unk2 }

/-! ### HardMacro constraints (`ModuleHardMacro` in
`hierarchical/placement_constraints.py`) and Hierarchical master
resolution -/

/-- The `master_module` reference a `ModuleHardMacro` ends up with after
`__init__`: `None`, a `VerilogModule`, or an `IRVMacro`. -/
inductive MasterRef : Type where
  | noneRef
  | vmodRef (m : VMod)
  | macRef (mac : IRVMacro)
deriving DecidableEq, Repr

/-- The fields of a `ModuleHardMacro` involved in rendering.  After
`ModuleConstraint.__init__`, absent `width`/`height` entries are stored
as `0` (the parameter loop assigns `yml.get(name) or 0`), which is also
Python-falsy, so `0` faithfully models "unset". -/
structure ModuleHardMacro : Type where
  x : ℚ
  y : ℚ
  width : ℚ
  height : ℚ
  master_module : MasterRef
deriving DecidableEq, Repr

/-- The effective rendered dimensions computed by
`ModuleHardMacro.render`: start from (0, 0); take the explicit
`width`/`height` when both are truthy; then, whenever the master is an
`IRVMacro`, overwrite BOTH with the macro's `c_size_x` (the source
assigns `c_size_x` to the height as well). -/
def ModuleHardMacro.renderDims (c : ModuleHardMacro) : ℚ × ℚ :=
  let wh :=
    if c.width ≠ 0 ∧ c.height ≠ 0 then (c.width, c.height) else ((0 : ℚ), (0 : ℚ))
  match c.master_module with
  | MasterRef.macRef mac => (mac.macroDef.c_size_x, mac.macroDef.c_size_x)
  | _ => wh

/-- The constraint-relevant view of a `VerilogModuleHierarchy` for master
resolution: the module map and the macro library
(`self.modules`, `self.macro_library`). -/
structure HierView : Type where
  modules : List (String × VMod)
  macro_library : String → Option IRVMacro

/-- `VerilogModuleHierarchy.get_module_by_name`: a plain module-map
lookup. -/
def HierView.get_module_by_name (h : HierView) (name : String) : Option VMod :=
  pyDictGet h.modules name

/-- The master-module resolution performed by the live
`ModuleHierarchical.__init__` in `hierarchical/placement_constraints.py`:
`hierarchy.get_module_by_name(self.master)` and nothing else — in
particular the macro library is never consulted. -/
def moduleHierarchicalMasterLive (h : HierView) (master : String) : Option VMod :=
  h.get_module_by_name master

/-- The legacy `ModuleHierarchical.attempt_init` in
`models/placement_constraints.py`:
`model.get_module_by_name(master) or model.get_lef_by_instance_name(master)`,
a module-registry lookup with a LEF-library fallback. -/
def moduleHierarchicalAttemptInit (modules : List (String × VMod))
    (get_lef_by_instance_name : String → Option IRVMacro) (master : String) :
    Option (VMod ⊕ IRVMacro) :=
  match pyDictGet modules master with
  | some m => some (Sum.inl m)
  | none =>
    match get_lef_by_instance_name master with
    | some mac => some (Sum.inr mac)
    | none => none

/-! ### Path resolution (`VerilogModuleHierarchy.get_module_by_path`) -/

/-- A node of the resolved hierarchy graph as `get_module_by_path` walks
it: a `VerilogModule` (name plus its `instances` dict, each instance
identified with its `module` target — the dict values are always
`VerilogModuleInstance` wrappers in the source, so the `isinstance`
test on a found entry always succeeds), an `IRVMacro`, or a bare
unresolved type-name string. -/
inductive PyNode : Type where
  | vmodule (name : String) (instances : List (String × PyNode))
  | macNode (mac : IRVMacro)
  | strNode (s : String)

/-- Python `path.split('/')` on the character list: always returns at
least one (possibly empty) segment. -/
def splitOnSlashChars : List Char → List (List Char)
  | [] => [[]]
  | c :: rest =>
    let r := splitOnSlashChars rest
    if c = '/' then [] :: r
    else
      match r with
      | h :: t => (c :: h) :: t
      | [] => [[c]]

/-- Python `path.split('/')` on strings. -/
def pySplitSlash (s : String) : List String :=
  (splitOnSlashChars s.toList).map (fun l => String.mk l)

/-- The segment loop of `get_module_by_path`: on a module, look the
segment up among its instances (a missing instance makes the current
node `None`); on a macro or a bare string, return it at once; on `None`,
return `None`.  Total, so the walk never raises. -/
def walkPath : Option PyNode → List String → Option PyNode
  | cur, [] => cur
  | some (PyNode.vmodule _n insts), seg :: rest =>
    (match pyDictGet insts seg with
     | some tgt => walkPath (some tgt) rest
     | none => walkPath none rest)
  | some (PyNode.macNode mac), _ :: _ => some (PyNode.macNode mac)
  | some (PyNode.strNode s), _ :: _ => some (PyNode.strNode s)
  | none, _ :: _ => none

/-- `VerilogModuleHierarchy.get_module_by_path`: split on '/', resolve
the first segment through `get_module_by_name` (the module map), then
walk the remaining segments.  `split` never returns an empty list, so
the first branch is unreachable and kept only for totality. -/
def get_module_by_path (modules : List (String × PyNode)) (path : String) :
    Option PyNode :=
  match pySplitSlash path with
  | [] => none
  | s0 :: rest => walkPath (pyDictGet modules s0) rest

/-! ### Source scanning (`strip_comments`, `parse_verilog_file` and
`parse_module_instances` regex matching in `verilog_module.py`).
Texts are modelled as character lists with Python `re` semantics
specialized, faithfully, to the three fixed patterns the source uses. -/

/-- Whether the text contains the two characters `a` then `b`
adjacently. -/
def hasPair (a b : Char) : List Char → Bool
  | [] => false
  | c :: rest =>
    if c = a ∧ rest.head? = some b then true else hasPair a b rest

/-- For `re.sub(r'/\x2a.\x2a?\x2a/', ...)`: drop everything up to and
including the first block-comment terminator, or report that none
exists. -/
def dropClose : List Char → Option (List Char)
  | [] => none
  | [_] => none
  | c :: d :: rest =>
    if c = '*' ∧ d = '/' then some rest else dropClose (d :: rest)

/-- The single left-to-right pass of
`re.sub(r'/\x2a.\x2a?\x2a/', '', content, flags=re.DOTALL)`: at the first
block-comment opener, delete through the nearest terminator and
continue after it; an opener with no terminator anywhere matches
nothing (nor can any later opener), so the remainder is kept verbatim.
The fuel argument only bounds the recursion; every step strictly
shortens the text, so the `length + 1` supplied by `blockPass` is never
exhausted (and exhausted fuel would return the remainder unchanged,
the same as the no-match case). -/
def blockPassAux : Nat → List Char → List Char
  | 0, t => t
  | _ + 1, [] => []
  | fuel + 1, c :: rest =>
    if c = '/' ∧ rest.head? = some '*' then
      match dropClose rest.tail with
      | some rest2 => blockPassAux fuel rest2
      | none => c :: rest
    else c :: blockPassAux fuel rest

/-- The block-comment removal pass. -/
def blockPass (t : List Char) : List Char :=
  blockPassAux (t.length + 1) t

/-- The single pass of `re.sub(r'//.\x2a', '', content)` as a one-pass
state machine: in copy mode (`skipping = false`), the first `//` of a
line switches to skip mode; in skip mode characters are dropped up to
the newline, which itself survives and restores copy mode. -/
def linePassAux : Bool → List Char → List Char
  | _, [] => []
  | true, c :: rest =>
    if c = '\n' then '\n' :: linePassAux false rest else linePassAux true rest
  | false, c :: rest =>
    if c = '/' ∧ rest.head? = some '/' then linePassAux true rest
    else c :: linePassAux false rest

/-- The line-comment removal pass. -/
def linePass (t : List Char) : List Char :=
  linePassAux false t

/-- `VerilogModuleHierarchy.strip_comments`: block comments are removed
first, then line comments, one regex pass each. -/
def strip_comments (t : List Char) : List Char :=
  linePass (blockPass t)

/-- Python `\w` (ASCII). -/
def isWordChar (c : Char) : Bool :=
  c.isAlphanum || c = '_'

/-- Python `\s` (ASCII). -/
def isSpaceChar (c : Char) : Bool :=
  c = ' ' || c = '\t' || c = '\n' || c = '\r' || c = '\x0b' || c = '\x0c'

/-- Match a literal at the head of the text, returning the remainder. -/
def stripLit : List Char → List Char → Option (List Char)
  | [], t => some t
  | _ :: _, [] => none
  | p :: ps, c :: cs => if c = p then stripLit ps cs else none

/-- Non-greedy `([\s\S]*?)lit`: split at the first occurrence of the
literal, returning the text before it and the remainder after it. -/
def splitAtLit (pat : List Char) : List Char → Option (List Char × List Char)
  | [] => if pat.isEmpty then some ([], []) else none
  | c :: cs =>
    match stripLit pat (c :: cs) with
    | some rest => some ([], rest)
    | none =>
      match splitAtLit pat cs with
      | some (b, a) => some (c :: b, a)
      | none => none

/-- Attempt to match `RE_MODULE_DEFINITION`
(`module\s+(\w+)\s*(#\s*\([^)]*\)\s*)?\s*\([^)]*\)\s*;([\s\S]*?)endmodule`)
anchored at the head of the text, returning (name, body, remainder).
Every boundary in this pattern is between disjoint character classes, so
maximal munch plus first-occurrence for the non-greedy parts reproduces
the backtracking engine exactly. -/
def matchModuleAt (t : List Char) : Option (List Char × List Char × List Char) :=
  match stripLit "module".toList t with
  | none => none
  | some r1 =>
    let sp := r1.span isSpaceChar
    if sp.1.isEmpty then none
    else
      let nm := sp.2.span isWordChar
      if nm.1.isEmpty then none
      else
        let r4 := (nm.2.span isSpaceChar).2
        let r5o : Option (List Char) :=
          match r4 with
          | '#' :: rr =>
            (match (rr.span isSpaceChar).2 with
             | '(' :: rr3 =>
               (match (rr3.span (fun c => c ≠ ')')).2 with
                | ')' :: rr5 => some ((rr5.span isSpaceChar).2)
                | _ => none)
             | _ => none)
          | _ => some r4
        match r5o with
        | none => none
        | some r5 =>
          match (r5.span isSpaceChar).2 with
          | '(' :: r7 =>
            (match (r7.span (fun c => c ≠ ')')).2 with
             | ')' :: r9 =>
               (match (r9.span isSpaceChar).2 with
                | ';' :: r11 =>
                  (match splitAtLit "endmodule".toList r11 with
                   | some (body, rest) => some (nm.1, body, rest)
                   | none => none)
                | _ => none)
             | _ => none)
          | _ => none

/-- `re.findall(RE_MODULE_DEFINITION, ...)`: scan positions left to
right, emitting every match and resuming after it.  The fuel only
bounds the recursion; every call shortens the text (a hit consumes at
least the `module` keyword), so `length + 1` can never be exhausted. -/
def findModulesAux : Nat → List Char → List (List Char × List Char)
  | 0, _ => []
  | _ + 1, [] => []
  | fuel + 1, c :: rest =>
    match matchModuleAt (c :: rest) with
    | some (nm, body, after) => (nm, body) :: findModulesAux fuel after
    | none => findModulesAux fuel rest

/-- All `(module name, body)` definition matches of a text. -/
def findModules (t : List Char) : List (List Char × List Char) :=
  findModulesAux (t.length + 1) t

/-- Attempt to match `RE_MODULE_INSTANTIATION` (`(\w+)\s+(\w+)\s*\(`)
anchored at the head of the text, returning (type name, instance name,
remainder).  As above, all boundaries are between disjoint classes. -/
def matchInstAt (t : List Char) : Option (List Char × List Char × List Char) :=
  let w1 := t.span isWordChar
  if w1.1.isEmpty then none
  else
    let sp := w1.2.span isSpaceChar
    if sp.1.isEmpty then none
    else
      let w2 := sp.2.span isWordChar
      if w2.1.isEmpty then none
      else
        match (w2.2.span isSpaceChar).2 with
        | '(' :: rest => some (w1.1, w2.1, rest)
        | _ => none

/-- `re.findall(RE_MODULE_INSTANTIATION, body)`, fuelled as above. -/
def findInstsAux : Nat → List Char → List (List Char × List Char)
  | 0, _ => []
  | _ + 1, [] => []
  | fuel + 1, c :: rest =>
    match matchInstAt (c :: rest) with
    | some (ty, nm, after) => (ty, nm) :: findInstsAux fuel after
    | none => findInstsAux fuel rest

/-- All `(type name, instance name)` instantiation matches of a body. -/
def findInsts (t : List Char) : List (List Char × List Char) :=
  findInstsAux (t.length + 1) t

/-- The scan of one source text as `parse_verilog_file` plus
`parse_module_instances` perform it: strip comments, collect every
module definition, and within each body collect the instantiation
pairs. -/
def parse_verilog_text (t : List Char) :
    List (List Char × List Char × List (List Char × List Char)) :=
  (findModules (strip_comments t)).map (fun p => (p.1, p.2, findInsts p.2))

/-! ### Concrete fixtures used by witnesses and counterexamples -/

/-- A horizontal test layer with pitch 1/2. -/
def tmlHor : TechMetalLayer :=
  ⟨{ name := "M1", direction := RoutingDirection.horizontal, pitch := 1/2 }⟩

/-- A redistribution (neither horizontal nor vertical) test layer. -/
def tmlRedist : TechMetalLayer :=
  ⟨{ name := "RDL", direction := RoutingDirection.redistribution, pitch := 1/2 }⟩


/-- An empty test module. -/
def vmEmpty : VerilogModule :=
  { name := "top", constraints := [], constraints_list := [],
    constraints_indices := [], top_constraint := none, children := [] }

/-- A constraint record with the unregistered type tag "bogus". -/
def ymlBogus : YmlRecord :=
  { oid := 7, path := "top/u0", type := "bogus",
    x := 0, y := 0, width := 1, height := 1 }

/-- A toplevel test constraint. -/
def cTop : ModuleConstraint :=
  { oid := 1, path := "top", kind := ConstraintKind.toplevel,
    x := 0, y := 0, width := 4, height := 4 }


/-- A registered test module named "leaf". -/
def vmLeaf : VMod := { name := "leaf", oid := 0 }

/-- A module registered under the name "foo_macro", shadowed by the macro
library in the priority witness. -/
def vmShadow : VMod := { name := "foo_macro", oid := 1 }

/-- A test macro named "foo_macro". -/
def macFoo : IRVMacro :=
  { name := "foo_macro", macroDef := { c_size_x := 2, c_size_y := 3 } }

/-- An empty macro library. -/
def noMacros : String → Option IRVMacro := fun _ => none

/-- A macro library holding exactly "foo_macro". -/
def libFoo : String → Option IRVMacro :=
  fun s => if s = "foo_macro" then some macFoo else none

/-- The empty per-module resolver state. -/
def hsEmpty : HierState := { instances := [], unknown_macros := [] }

/-- State after scanning instance `foo_macro u0 (...)` with no module and
no macro named "foo_macro" registered. -/
def hsStep1 : HierState := parseOneInstance [] noMacros hsEmpty "foo_macro" "u0"

/-- State after re-running resolution once "foo_macro" is in the macro
library. -/
def hsStep2 : HierState := parseOneInstance [] libFoo hsStep1 "foo_macro" "u0"


/-- A HardMacro constraint with unset (zero) width and height bound to
`macFoo` (footprint 2 by 3). -/
def hmUnset : ModuleHardMacro :=
  { x := 0, y := 0, width := 0, height := 0,
    master_module := MasterRef.macRef macFoo }

/-- A HardMacro constraint with explicit width 7 and height 9 bound to
`macFoo` (footprint 2 by 3). -/
def hmExplicit : ModuleHardMacro :=
  { x := 0, y := 0, width := 7, height := 9,
    master_module := MasterRef.macRef macFoo }

/-- A hierarchy view with no modules whose macro library knows
"foo_macro". -/
def hvMacroOnly : HierView := { modules := [], macro_library := libFoo }


/-- A three-level test hierarchy: module "a" has instance "b" of a
module whose instance "c" resolves to the macro `macFoo`. -/
def pathModules : List (String × PyNode) :=
  [("a", PyNode.vmodule "a"
    [("b", PyNode.vmodule "bt"
      [("c", PyNode.macNode macFoo)])])]


/-- The counterexample text for comment stripping: a line comment whose
content manufactures a block comment around a module definition once
the block pass has consumed its interior. -/
def cexText : List Char := "//*z*/* module m(); endmodule */".toList

/-- A text with ordinary comments and no block-comment opener. -/
def plainText : List Char := "// note\nmodule m(); endmodule".toList

/-! ### Theorems -/

/-- Helper: with a nonzero divisor, the truncated decimal remainder is
zero exactly on integer multiples of the divisor. -/
theorem decimalMod_eq_zero_iff (a p : ℚ) (hp : p ≠ 0) :
    decimalMod a p = 0 ↔ ∃ k : ℤ, a = k * p := by
  unfold decimalMod
  constructor
  · intro h
    set k := pyDecTrunc (a / p) with hk
    have ha : a = p * (k : ℚ) := sub_eq_zero.mp h
    exact ⟨k, by rw [ha]; ring⟩
  · rintro ⟨k, rfl⟩
    have hq : (k : ℚ) * p / p = (k : ℚ) := by
      field_simp
    rw [hq]
    have ht : pyDecTrunc (k : ℚ) = k := by
      unfold pyDecTrunc
      by_cases hk : 0 ≤ (k : ℚ)
      · simp [hk, Int.floor_intCast]
      · simp [hk, Int.ceil_intCast]
    rw [ht]; ring

/-- Claim C3: on a horizontal layer the check passes iff both `x` and
`x + width` are exact integer multiples of the pitch; on a vertical
layer iff both `y` and `y + height` are; the aggregate verdict is
ALIGNED iff every applicable layer passes, MISALIGNED (retaining the
full failing-layer set) iff at least one layer fails, and UNKNOWN
exactly when no stackup data is attached. -/
theorem check_alignment_spec
    (l : TechMetalLayer) (layers : List TechMetalLayer) (x y width height : ℚ)
    (hp : l.metal.pitch ≠ 0) :
    (l.dir = RoutingDirection.horizontal →
      (l.check_alignment x y width height = some true ↔
        (∃ j : ℤ, x = j * l.metal.pitch) ∧
        (∃ k : ℤ, x + width = k * l.metal.pitch))) ∧
    (l.dir = RoutingDirection.vertical →
      (l.check_alignment x y width height = some true ↔
        (∃ j : ℤ, y = j * l.metal.pitch) ∧
        (∃ k : ℤ, y + height = k * l.metal.pitch))) ∧
    ((refresh_alignment layers x y width height).1 = IRVAlignCheck.ALIGNED ↔
      layers ≠ [] ∧
        ∀ m ∈ layers, m.check_alignment x y width height ≠ some false) ∧
    ((refresh_alignment layers x y width height).1 = IRVAlignCheck.MISALIGNED ↔
      ∃ m ∈ layers, m.check_alignment x y width height = some false) ∧
    ((refresh_alignment layers x y width height).1 = IRVAlignCheck.MISALIGNED →
      (refresh_alignment layers x y width height).2 =
        layers.filter (fun m => m.check_alignment x y width height = some false)) ∧
    ((refresh_alignment layers x y width height).1 = IRVAlignCheck.UNKNOWN ↔
      layers = []) := by
  refine ⟨?_, ?_, ?_, ?_, ?_, ?_⟩
  · intro hdir
    have hceq : l.check_alignment x y width height =
        some (decide (decimalMod x l.metal.pitch = 0 ∧
          decimalMod (x + width) l.metal.pitch = 0)) := by
      simp [TechMetalLayer.check_alignment, hdir]
    rw [hceq]
    simp only [Option.some.injEq, decide_eq_true_eq]
    rw [decimalMod_eq_zero_iff _ _ hp, decimalMod_eq_zero_iff _ _ hp]
  · intro hdir
    have hceq : l.check_alignment x y width height =
        some (decide (decimalMod y l.metal.pitch = 0 ∧
          decimalMod (y + height) l.metal.pitch = 0)) := by
      simp [TechMetalLayer.check_alignment, hdir]
    rw [hceq]
    simp only [Option.some.injEq, decide_eq_true_eq]
    rw [decimalMod_eq_zero_iff _ _ hp, decimalMod_eq_zero_iff _ _ hp]
  · unfold refresh_alignment
    by_cases hnil : layers = []
    · subst hnil; simp
    · have h1 : layers.isEmpty = false := by simp [List.isEmpty_iff, hnil]
      by_cases hf :
          layers.filter (fun m => m.check_alignment x y width height = some false) = []
      · have h2 : (layers.filter
            (fun m => m.check_alignment x y width height = some false)).isEmpty = true := by
          simp [hf]
        rw [List.filter_eq_nil_iff] at hf
        simp only [h1, h2, Bool.false_eq_true, if_false, if_true]
        constructor
        · intro _
          exact ⟨hnil, fun m hm => by simpa using hf m hm⟩
        · intro _; trivial
      · have h2 : (layers.filter
            (fun m => m.check_alignment x y width height = some false)).isEmpty = false := by
          simp [List.isEmpty_iff, hf]
        simp only [h1, h2, Bool.false_eq_true, if_false]
        constructor
        · intro h; cases h
        · rintro ⟨-, hall⟩
          exfalso
          apply hf
          rw [List.filter_eq_nil_iff]
          intro m hm
          simpa using hall m hm
  · unfold refresh_alignment
    by_cases hnil : layers = []
    · subst hnil; simp
    · have h1 : layers.isEmpty = false := by simp [List.isEmpty_iff, hnil]
      by_cases hf :
          layers.filter (fun m => m.check_alignment x y width height = some false) = []
      · have h2 : (layers.filter
            (fun m => m.check_alignment x y width height = some false)).isEmpty = true := by
          simp [hf]
        simp only [h1, h2, Bool.false_eq_true, if_false, if_true]
        rw [List.filter_eq_nil_iff] at hf
        constructor
        · intro h; cases h
        · rintro ⟨m, hm, hmem⟩
          exact absurd hmem (by simpa using hf m hm)
      · have h2 : (layers.filter
            (fun m => m.check_alignment x y width height = some false)).isEmpty = false := by
          simp [List.isEmpty_iff, hf]
        simp only [h1, h2, Bool.false_eq_true, if_false, true_iff]
        obtain ⟨m, hm⟩ := List.exists_mem_of_ne_nil _ hf
        have hsplit := List.mem_filter.mp hm
        exact ⟨m, hsplit.1, by simpa using hsplit.2⟩
  · unfold refresh_alignment
    by_cases hnil : layers = []
    · subst hnil; simp
    · have h1 : layers.isEmpty = false := by simp [List.isEmpty_iff, hnil]
      by_cases hf :
          layers.filter (fun m => m.check_alignment x y width height = some false) = []
      · have h2 : (layers.filter
            (fun m => m.check_alignment x y width height = some false)).isEmpty = true := by
          simp [hf]
        simp only [h1, h2, Bool.false_eq_true, if_false, if_true]
        intro h; cases h
      · have h2 : (layers.filter
            (fun m => m.check_alignment x y width height = some false)).isEmpty = false := by
          simp [List.isEmpty_iff, hf]
        simp only [h1, h2, Bool.false_eq_true, if_false]
        intro _; trivial
  · unfold refresh_alignment
    by_cases hnil : layers = []
    · subst hnil; simp
    · have h1 : layers.isEmpty = false := by simp [List.isEmpty_iff, hnil]
      by_cases hf :
          layers.filter (fun m => m.check_alignment x y width height = some false) = []
      · have h2 : (layers.filter
            (fun m => m.check_alignment x y width height = some false)).isEmpty = true := by
          simp [hf]
        simp only [h1, h2, Bool.false_eq_true, if_false, if_true]
        constructor
        · intro h; cases h
        · intro h; exact absurd h hnil
      · have h2 : (layers.filter
            (fun m => m.check_alignment x y width height = some false)).isEmpty = false := by
          simp [List.isEmpty_iff, hf]
        simp only [h1, h2, Bool.false_eq_true, if_false]
        constructor
        · intro h; cases h
        · intro h; exact absurd h hnil

/-- Witness for C3: one horizontal layer of pitch 1/2; a bbox at x = 0
of width 1 passes and the aggregate verdict is ALIGNED; with no layers
the verdict is UNKNOWN. -/
theorem check_alignment_spec_witness :
    tmlHor.check_alignment 0 0 1 1 = some true ∧
    (refresh_alignment [tmlHor] 0 0 1 1).1 = IRVAlignCheck.ALIGNED ∧
    (refresh_alignment [] 0 0 1 1).1 = IRVAlignCheck.UNKNOWN := by
  have h := check_alignment_spec tmlHor [tmlHor] 0 0 1 1 (by norm_num [tmlHor])
  have h2 := check_alignment_spec tmlHor ([] : List TechMetalLayer) 0 0 1 1
    (by norm_num [tmlHor])
  refine ⟨?_, ?_, ?_⟩
  · exact (h.1 rfl).mpr ⟨⟨0, by norm_num⟩, ⟨2, by norm_num [tmlHor]⟩⟩
  · refine (h.2.2.1).mpr ⟨by simp, ?_⟩
    intro m hm
    rw [List.mem_singleton] at hm
    subst hm
    rw [(h.1 rfl).symm.mp ⟨⟨0, by norm_num⟩, ⟨2, by norm_num [tmlHor]⟩⟩]
    simp
  · exact (h2.2.2.2.2.2).mpr rfl

/-- Claim C10: a layer whose direction is neither horizontal nor
vertical yields no verdict at all (`None`) from `check_alignment`, the
call does not raise, and under Python truthiness that missing verdict
reads as a failure. -/
theorem check_alignment_none_on_other_direction
    (l : TechMetalLayer) (x y width height : ℚ)
    (h1 : l.dir ≠ RoutingDirection.horizontal)
    (h2 : l.dir ≠ RoutingDirection.vertical) :
    l.check_alignment x y width height = none ∧
    pyTruthy (l.check_alignment x y width height) = false := by
  have : l.check_alignment x y width height = none := by
    unfold TechMetalLayer.check_alignment
    simp [h1, h2]
  exact ⟨this, by rw [this]; rfl⟩

/-- Witness for C10: a redistribution layer gives no verdict and is
falsy. -/
theorem check_alignment_none_on_other_direction_witness :
    tmlRedist.check_alignment 0 0 1 1 = none ∧
    pyTruthy (tmlRedist.check_alignment 0 0 1 1) = false :=
  check_alignment_none_on_other_direction tmlRedist 0 0 1 1
    (by simp [tmlRedist, TechMetalLayer.dir]) (by simp [tmlRedist, TechMetalLayer.dir])

/-- Helper: writing a key then reading it back yields the new value. -/
theorem pyDictGet_set_self {κ α : Type} [DecidableEq κ]
    (d : List (κ × α)) (k : κ) (v : α) :
    pyDictGet (pyDictSet d k v) k = some v := by
  induction d with
  | nil => simp [pyDictSet, pyDictGet]
  | cons hd tl ih =>
    obtain ⟨k0, v0⟩ := hd
    by_cases hk : k0 = k
    · subst hk; simp [pyDictSet, pyDictGet]
    · simp [pyDictSet, pyDictGet, hk, ih]

/-- Helper: writing one key leaves every other key's binding unchanged. -/
theorem pyDictGet_set_ne {κ α : Type} [DecidableEq κ]
    (d : List (κ × α)) (k k2 : κ) (v : α) (h : k2 ≠ k) :
    pyDictGet (pyDictSet d k v) k2 = pyDictGet d k2 := by
  induction d with
  | nil =>
    have hne : ¬(k = k2) := fun hh => h hh.symm
    simp [pyDictSet, pyDictGet, hne]
  | cons hd tl ih =>
    obtain ⟨k0, v0⟩ := hd
    by_cases hk : k0 = k
    · subst hk
      have hne : ¬(k0 = k2) := fun hh => h hh.symm
      simp [pyDictSet, pyDictGet, hne]
    · simp [pyDictSet, pyDictGet, hk, ih]

/-- Claim C7: `add_constraint` overwrites the path map entry at the
constraint's path and only there, always appends to the ordered list and
records the fresh index, sets the TopLevel slot exactly for TopLevel
constraints, and extends the children list exactly for Hierarchical
constraints. -/
theorem add_constraint_spec (m : VerilogModule) (c : ModuleConstraint) :
    pyDictGet (m.add_constraint c).constraints c.path = some c ∧
    (∀ p : String, p ≠ c.path →
      pyDictGet (m.add_constraint c).constraints p = pyDictGet m.constraints p) ∧
    (m.add_constraint c).constraints_list = m.constraints_list ++ [c] ∧
    pyDictGet (m.add_constraint c).constraints_indices c =
      some m.constraints_list.length ∧
    (c.kind = ConstraintKind.toplevel →
      (m.add_constraint c).top_constraint = some c) ∧
    (c.kind ≠ ConstraintKind.toplevel →
      (m.add_constraint c).top_constraint = m.top_constraint) ∧
    (c.kind = ConstraintKind.hierarchical →
      (m.add_constraint c).children = m.children ++ [c]) ∧
    (c.kind ≠ ConstraintKind.hierarchical →
      (m.add_constraint c).children = m.children) := by
  refine ⟨?_, ?_, rfl, ?_, ?_, ?_, ?_, ?_⟩
  · exact pyDictGet_set_self _ _ _
  · intro p hp
    exact pyDictGet_set_ne _ _ _ _ hp
  · exact pyDictGet_set_self _ _ _
  · intro h; simp [VerilogModule.add_constraint, h]
  · intro h; simp [VerilogModule.add_constraint, h]
  · intro h; simp [VerilogModule.add_constraint, h]
  · intro h; simp [VerilogModule.add_constraint, h]

/-- Witness for C7: attaching a toplevel constraint to the empty module
places it at its path, appends it at index 0 and fills the TopLevel
slot. -/
theorem add_constraint_spec_witness :
    pyDictGet (vmEmpty.add_constraint cTop).constraints cTop.path = some cTop ∧
    (vmEmpty.add_constraint cTop).constraints_list = [cTop] ∧
    pyDictGet (vmEmpty.add_constraint cTop).constraints_indices cTop = some 0 ∧
    (vmEmpty.add_constraint cTop).top_constraint = some cTop := by
  have h := add_constraint_spec vmEmpty cTop
  exact ⟨h.1, h.2.2.1, h.2.2.2.1, h.2.2.2.2.1 rfl⟩

/-- Counterexample to claim C1: deserializing a record with the
unregistered type tag "bogus" fails by raising `TypeError` — the `.get`
lookup yields `None` and `None(yml, hierarchy)` is invoked — not by
raising an `UnknownConstraintType` error (no such exception exists in the
source); the module is left unchanged. -/
theorem deserialize_bogus_counterexample :
    registerConstraintStep vmEmpty ymlBogus =
      (vmEmpty, some PyExc.typeErrorNoneNotCallable) ∧
    PyExc.typeErrorNoneNotCallable ≠ PyExc.unknownConstraintType := by
  exact ⟨rfl, by decide⟩

/-- Claim C1 as amended: an unregistered type tag makes `deserialize`
fail with the `TypeError` from invoking a `None` constructor (not a named
`UnknownConstraintType` error), and the target module's ordered
constraint list, path map, TopLevel slot and children list are all
unchanged: no partial object is attached. -/
theorem deserialize_unregistered_spec (m : VerilogModule) (yml : YmlRecord)
    (h : pyDictGet PLACEMENT_CONSTRAINT_TYPES yml.type = none) :
    registerConstraintStep m yml = (m, some PyExc.typeErrorNoneNotCallable) ∧
    (registerConstraintStep m yml).1.constraints = m.constraints ∧
    (registerConstraintStep m yml).1.constraints_list = m.constraints_list ∧
    (registerConstraintStep m yml).1.top_constraint = m.top_constraint ∧
    (registerConstraintStep m yml).1.children = m.children := by
  have hstep : registerConstraintStep m yml =
      (m, some PyExc.typeErrorNoneNotCallable) := by
    unfold registerConstraintStep PlacementConstraintManager.deserialize
    rw [h]
  exact ⟨hstep, by rw [hstep], by rw [hstep], by rw [hstep], by rw [hstep]⟩

/-- Witness for the amended C1: the "bogus" record against the empty
module. -/
theorem deserialize_unregistered_spec_witness :
    registerConstraintStep vmEmpty ymlBogus =
      (vmEmpty, some PyExc.typeErrorNoneNotCallable) :=
  (deserialize_unregistered_spec vmEmpty ymlBogus (by decide)).1

/-- Helper: a pair just added by `set.add` is a member. -/
theorem pySetAdd_mem (s : List (String × String)) (p : String × String) :
    p ∈ pySetAdd s p := by
  unfold pySetAdd
  by_cases h : p ∈ s
  · simp [h]
  · simp [h]

/-- Helper: after `set.remove` the removed pair is gone. -/
theorem pySetRemove_not_mem (s : List (String × String)) (p : String × String) :
    p ∉ pySetRemove s p := by
  intro h
  have := List.mem_filter.mp h
  simpa using this.2

/-- Claim C4: resolution follows the fixed priority order.  A previously
resolved module is only re-validated against the module map (degrading to
Pending when its name is gone, never consulting the macro library); an
unresolved string is looked up in the macro library first — resolving to
the macro and stopping even when a module of the same name exists — and
only otherwise in the module map; a resolved macro is left alone. -/
theorem resolveStep_priority_spec (modules : List (String × VMod))
    (lib : String → Option IRVMacro) (s : String) (m m2 : VMod)
    (mac : IRVMacro) :
    (lib s = some mac →
      resolveStep modules lib (InstTarget.pendingName s) =
        InstTarget.resolvedMac mac) ∧
    (lib s = none → pyDictGet modules s = some m →
      resolveStep modules lib (InstTarget.pendingName s) =
        InstTarget.resolvedMod m) ∧
    (lib s = none → pyDictGet modules s = none →
      resolveStep modules lib (InstTarget.pendingName s) =
        InstTarget.pendingName s) ∧
    (pyDictGet modules m.name = some m2 →
      resolveStep modules lib (InstTarget.resolvedMod m) =
        InstTarget.resolvedMod m2) ∧
    (pyDictGet modules m.name = none →
      resolveStep modules lib (InstTarget.resolvedMod m) =
        InstTarget.pendingName m.name) ∧
    resolveStep modules lib (InstTarget.resolvedMac mac) =
      InstTarget.resolvedMac mac := by
  refine ⟨?_, ?_, ?_, ?_, ?_, rfl⟩
  · intro hlib; simp [resolveStep, hlib]
  · intro hlib hmod; simp [resolveStep, hlib, hmod]
  · intro hlib hmod; simp [resolveStep, hlib, hmod]
  · intro hmod; simp [resolveStep, hmod]
  · intro hmod; simp [resolveStep, hmod]

/-- Witness for C4: the macro library wins over a module registered under
the same name; a known module resolves from the map; a resolved module
whose name has vanished degrades to Pending. -/
theorem resolveStep_priority_spec_witness :
    resolveStep [("foo_macro", vmShadow)] libFoo
      (InstTarget.pendingName "foo_macro") = InstTarget.resolvedMac macFoo ∧
    resolveStep [("leaf", vmLeaf)] noMacros
      (InstTarget.pendingName "leaf") = InstTarget.resolvedMod vmLeaf ∧
    resolveStep [] libFoo (InstTarget.resolvedMod vmLeaf) =
      InstTarget.pendingName "leaf" := by
  refine ⟨?_, ?_, ?_⟩
  · exact (resolveStep_priority_spec [("foo_macro", vmShadow)] libFoo
      "foo_macro" vmLeaf vmLeaf macFoo).1 (by decide)
  · exact (resolveStep_priority_spec [("leaf", vmLeaf)] noMacros
      "leaf" vmLeaf vmLeaf macFoo).2.1 rfl (by decide)
  · exact (resolveStep_priority_spec [] libFoo
      "x" vmLeaf vmLeaf macFoo).2.2.2.2.1 (by decide)

/-- Counterexample to claim C5: the unresolved instance
`foo_macro u0 (...)` (no module, no macro named "foo_macro") stays
Pending, but the pending index registers it under the instance name
"u0", not under the type name "foo_macro": no key of the index equals
the type name. -/
theorem pending_index_key_counterexample :
    hsStep1.instances = [("u0", InstTarget.pendingName "foo_macro")] ∧
    hsStep1.unknown_macros = [("u0", "u0")] ∧
    hsStep1.unknown_macros.all (fun p => p.1 ≠ "foo_macro") = true := by
  refine ⟨by decide, by decide, by decide⟩

/-- Claim C5 as amended: an instance whose type name matches no module
and no macro stays Pending and is registered in the pending index under
its instance name (not its type name); once a macro of the type name is
registered and resolution re-runs, the instance becomes Resolved(Macro)
and its pending-index entry is removed. -/
theorem pending_instance_lifecycle (modules : List (String × VMod))
    (lib lib2 : String → Option IRVMacro) (st : HierState)
    (typeName instName : String) (mac : IRVMacro)
    (hfresh : pyDictGet st.instances instName = none)
    (hlib : lib typeName = none)
    (hmod : pyDictGet modules typeName = none)
    (hlib2 : lib2 typeName = some mac) :
    pyDictGet (parseOneInstance modules lib st typeName instName).instances
        instName = some (InstTarget.pendingName typeName) ∧
    (instName, instName) ∈
      (parseOneInstance modules lib st typeName instName).unknown_macros ∧
    pyDictGet (parseOneInstance modules lib2
        (parseOneInstance modules lib st typeName instName)
        typeName instName).instances instName =
      some (InstTarget.resolvedMac mac) ∧
    (instName, instName) ∉
      (parseOneInstance modules lib2
        (parseOneInstance modules lib st typeName instName)
        typeName instName).unknown_macros := by
  set st1 := parseOneInstance modules lib st typeName instName with hst1def
  have hst1 : st1 =
      { instances := pyDictSet st.instances instName
          (InstTarget.pendingName typeName),
        unknown_macros := pySetAdd
          (pySetRemove st.unknown_macros (instName, instName))
          (instName, instName) } := by
    rw [hst1def]
    simp [parseOneInstance, hfresh, resolveStep, hlib, hmod]
  have hlookup1 : pyDictGet st1.instances instName =
      some (InstTarget.pendingName typeName) := by
    rw [hst1]
    exact pyDictGet_set_self _ _ _
  have hst2 : parseOneInstance modules lib2 st1 typeName instName =
      { instances := pyDictSet st1.instances instName
          (InstTarget.resolvedMac mac),
        unknown_macros := pySetRemove st1.unknown_macros
          (instName, instName) } := by
    simp [parseOneInstance, hlookup1, resolveStep, hlib2]
  refine ⟨hlookup1, ?_, ?_, ?_⟩
  · rw [hst1]
    exact pySetAdd_mem _ _
  · rw [hst2]
    exact pyDictGet_set_self _ _ _
  · rw [hst2]
    exact pySetRemove_not_mem _ _

/-- Witness for the amended C5: the concrete "foo_macro"/"u0" run. -/
theorem pending_instance_lifecycle_witness :
    pyDictGet hsStep1.instances "u0" =
      some (InstTarget.pendingName "foo_macro") ∧
    ("u0", "u0") ∈ hsStep1.unknown_macros ∧
    pyDictGet hsStep2.instances "u0" = some (InstTarget.resolvedMac macFoo) ∧
    ("u0", "u0") ∉ hsStep2.unknown_macros := by
  have h := pending_instance_lifecycle [] noMacros libFoo hsEmpty
    "foo_macro" "u0" macFoo (by decide) rfl (by decide) (by decide)
  exact h

/-- Counterexample to claim C2: bound to a macro of footprint (2, 3),
the constraint with unset width/height renders as (2, 2), not (2, 3) —
the height is taken from `c_size_x` — and the constraint with explicit
width 7 and height 9 also renders as (2, 2): the macro-derived footprint
overrides the explicit dimensions, not the other way around. -/
theorem hardmacro_dims_counterexample :
    hmUnset.renderDims = (2, 2) ∧ hmUnset.renderDims ≠ (2, 3) ∧
    hmExplicit.renderDims = (2, 2) ∧ hmExplicit.renderDims ≠ (7, 9) := by
  refine ⟨by decide, by decide, by decide, by decide⟩

/-- Claim C2 as amended: whenever the constraint is bound to an
`IRVMacro`, the effective rendered dimensions are `(c_size_x, c_size_x)`
— both taken from the macro's x footprint — regardless of any explicit
width/height (the derived footprint takes precedence); without a bound
macro, explicit truthy width and height are used, and otherwise the
dimensions stay (0, 0). -/
theorem hardmacro_dims_spec (c : ModuleHardMacro) (mac : IRVMacro) :
    (c.master_module = MasterRef.macRef mac →
      c.renderDims = (mac.macroDef.c_size_x, mac.macroDef.c_size_x)) ∧
    ((∀ m : IRVMacro, c.master_module ≠ MasterRef.macRef m) →
      c.width ≠ 0 → c.height ≠ 0 → c.renderDims = (c.width, c.height)) ∧
    ((∀ m : IRVMacro, c.master_module ≠ MasterRef.macRef m) →
      (c.width = 0 ∨ c.height = 0) → c.renderDims = (0, 0)) := by
  refine ⟨?_, ?_, ?_⟩
  · intro h
    simp [ModuleHardMacro.renderDims, h]
  · intro hnotmac hw hh
    unfold ModuleHardMacro.renderDims
    cases hm : c.master_module with
    | noneRef => simp [hw, hh]
    | vmodRef m => simp [hw, hh]
    | macRef m => exact absurd hm (hnotmac m)
  · intro hnotmac hzero
    unfold ModuleHardMacro.renderDims
    have hcond : ¬(c.width ≠ 0 ∧ c.height ≠ 0) := by
      rcases hzero with h | h
      · intro hc; exact hc.1 h
      · intro hc; exact hc.2 h
    cases hm : c.master_module with
    | noneRef => simp [hcond]
    | vmodRef m => simp [hcond]
    | macRef m => exact absurd hm (hnotmac m)

/-- Witness for the amended C2: the unset and explicit constraints bound
to `macFoo` both render as (2, 2); an unbound constraint with explicit
dimensions renders them. -/
theorem hardmacro_dims_spec_witness :
    hmUnset.renderDims = (2, 2) ∧ hmExplicit.renderDims = (2, 2) ∧
    ModuleHardMacro.renderDims
      { x := 0, y := 0, width := 7, height := 9,
        master_module := MasterRef.noneRef } = (7, 9) := by
  refine ⟨?_, ?_, ?_⟩
  · exact (hardmacro_dims_spec hmUnset macFoo).1 rfl
  · exact (hardmacro_dims_spec hmExplicit macFoo).1 rfl
  · exact (hardmacro_dims_spec _ macFoo).2.1 (by intro m h; cases h)
      (by norm_num) (by norm_num)

/-- Counterexample to claim C8: with an empty module registry and a
macro library that does hold "foo_macro", the live
`ModuleHierarchical.__init__` resolves the master to `None` — it never
falls back to the macro library, so the reference stays unresolved even
though the library could satisfy it. -/
theorem hierarchical_master_no_fallback_counterexample :
    moduleHierarchicalMasterLive hvMacroOnly "foo_macro" = none ∧
    hvMacroOnly.macro_library "foo_macro" = some macFoo := by
  exact ⟨rfl, by decide⟩

/-- Claim C8 as amended: the live Hierarchical constraint resolves its
master by name through the module registry only, with no macro-library
fallback, and an unresolved master is left as `None` without failing;
the legacy `attempt_init` variant in `models/placement_constraints.py`
is the one that falls back to a LEF lookup and likewise leaves both
misses unresolved. -/
theorem hierarchical_master_spec (h : HierView)
    (modules : List (String × VMod)) (lef : String → Option IRVMacro)
    (master : String) (m : VMod) (mac : IRVMacro) :
    (pyDictGet h.modules master = some m →
      moduleHierarchicalMasterLive h master = some m) ∧
    (pyDictGet h.modules master = none →
      moduleHierarchicalMasterLive h master = none) ∧
    (pyDictGet modules master = some m →
      moduleHierarchicalAttemptInit modules lef master = some (Sum.inl m)) ∧
    (pyDictGet modules master = none → lef master = some mac →
      moduleHierarchicalAttemptInit modules lef master = some (Sum.inr mac)) ∧
    (pyDictGet modules master = none → lef master = none →
      moduleHierarchicalAttemptInit modules lef master = none) := by
  refine ⟨?_, ?_, ?_, ?_, ?_⟩
  · intro hm
    simp [moduleHierarchicalMasterLive, HierView.get_module_by_name, hm]
  · intro hm
    simp [moduleHierarchicalMasterLive, HierView.get_module_by_name, hm]
  · intro hm
    simp [moduleHierarchicalAttemptInit, hm]
  · intro hm hl
    simp [moduleHierarchicalAttemptInit, hm, hl]
  · intro hm hl
    simp [moduleHierarchicalAttemptInit, hm, hl]

/-- Witness for the amended C8: the live resolver misses on
`hvMacroOnly` despite the macro, and the legacy variant falls back to
the macro. -/
theorem hierarchical_master_spec_witness :
    moduleHierarchicalMasterLive hvMacroOnly "foo_macro" = none ∧
    moduleHierarchicalAttemptInit [] libFoo "foo_macro" =
      some (Sum.inr macFoo) := by
  constructor
  · exact (hierarchical_master_spec hvMacroOnly [] libFoo "foo_macro"
      vmLeaf macFoo).2.1 (by decide)
  · exact (hierarchical_master_spec hvMacroOnly [] libFoo "foo_macro"
      vmLeaf macFoo).2.2.2.1 (by decide) (by decide)

/-- Helper: from a `None` current node the walk always yields `None`. -/
theorem walkPath_none (segs : List String) : walkPath none segs = none := by
  cases segs <;> rfl

/-- Claim C6: `get_module_by_path` splits on '/', resolves the first
segment as a module by name (returning not-found on failure), walks the
remaining segments as instance lookups, stops at the current node as
soon as it is a macro or a bare name, and for a valid path "a/b/c"
returns exactly the node reached by manually walking module "a",
instance "b", then instance "c"; the function is total, so it never
raises. -/
theorem get_module_by_path_spec (modules : List (String × PyNode))
    (path a b c : String) (nA nB : String)
    (iA iB : List (String × PyNode)) (nC : PyNode) :
    (pySplitSlash path = [a, b, c] →
      pyDictGet modules a = some (PyNode.vmodule nA iA) →
      pyDictGet iA b = some (PyNode.vmodule nB iB) →
      pyDictGet iB c = some nC →
      get_module_by_path modules path = some nC) ∧
    (∀ rest : List String, pySplitSlash path = a :: rest →
      pyDictGet modules a = none →
      get_module_by_path modules path = none) ∧
    (∀ (mac : IRVMacro) (seg : String) (rest : List String),
      walkPath (some (PyNode.macNode mac)) (seg :: rest) =
        some (PyNode.macNode mac)) ∧
    (∀ (s : String) (seg : String) (rest : List String),
      walkPath (some (PyNode.strNode s)) (seg :: rest) =
        some (PyNode.strNode s)) := by
  refine ⟨?_, ?_, fun mac seg rest => rfl, fun s seg rest => rfl⟩
  · intro hsplit hA hB hC
    simp only [get_module_by_path, hsplit, hA]
    simp [walkPath, hB, hC]
  · intro rest hsplit hA
    simp only [get_module_by_path, hsplit, hA]
    exact walkPath_none rest

/-- Witness for C6: on the concrete three-level hierarchy the path
"a/b/c" resolves to the macro node reached by the manual walk. -/
theorem get_module_by_path_spec_witness :
    get_module_by_path pathModules "a/b/c" = some (PyNode.macNode macFoo) ∧
    get_module_by_path pathModules "missing/x" = none := by
  constructor
  · exact (get_module_by_path_spec pathModules "a/b/c" "a" "b" "c" "a" "bt"
      [("b", PyNode.vmodule "bt" [("c", PyNode.macNode macFoo)])]
      [("c", PyNode.macNode macFoo)] (PyNode.macNode macFoo)).1
      rfl rfl rfl rfl
  · exact (get_module_by_path_spec pathModules "missing/x" "missing" "b" "c"
      "a" "bt" [] [] (PyNode.macNode macFoo)).2.1 ["x"] rfl rfl

/-- Helper: an adjacent-pair-free cons gives a pair-free tail and a safe
head. -/
theorem hasPair_cons_elim {a b c : Char} {l : List Char}
    (h : hasPair a b (c :: l) = false) :
    ¬(c = a ∧ l.head? = some b) ∧ hasPair a b l = false := by
  by_cases hc : c = a ∧ l.head? = some b
  · rw [hasPair, if_pos hc] at h
    cases h
  · rw [hasPair, if_neg hc] at h
    exact ⟨hc, h⟩

/-- Helper: in skip mode the line pass emits nothing before a newline. -/
theorem linePassAux_true_head (t : List Char) :
    (linePassAux true t).head? = none ∨ (linePassAux true t).head? = some '\n' := by
  induction t with
  | nil => left; rfl
  | cons c rest ih =>
    by_cases h : c = '\n'
    · right; simp [linePassAux, h]
    · rw [linePassAux, if_neg h]
      exact ih

/-- Helper: in copy mode the line pass starts with nothing, the original
head, or a newline. -/
theorem linePassAux_false_head (t : List Char) :
    (linePassAux false t).head? = none ∨
    (linePassAux false t).head? = t.head? ∨
    (linePassAux false t).head? = some '\n' := by
  cases t with
  | nil => left; rfl
  | cons c rest =>
    by_cases h : c = '/' ∧ rest.head? = some '/'
    · rw [linePassAux, if_pos h]
      rcases linePassAux_true_head rest with hh | hh
      · left; exact hh
      · right; right; exact hh
    · rw [linePassAux, if_neg h]
      right; left; rfl

/-- Helper: the output of the line pass never contains `//`. -/
theorem linePassAux_noLC (mode : Bool) (t : List Char) :
    hasPair '/' '/' (linePassAux mode t) = false := by
  induction t generalizing mode with
  | nil => cases mode <;> simp [linePassAux, hasPair]
  | cons c rest ih =>
    cases mode with
    | true =>
      by_cases h : c = '\n'
      · rw [linePassAux, if_pos h]
        have hcond : ¬('\n' = '/' ∧ (linePassAux false rest).head? = some '/') := by
          intro hc
          exact absurd hc.1 (by decide)
        rw [hasPair, if_neg hcond]
        exact ih false
      · rw [linePassAux, if_neg h]
        exact ih true
    | false =>
      by_cases h : c = '/' ∧ rest.head? = some '/'
      · rw [linePassAux, if_pos h]
        exact ih true
      · rw [linePassAux, if_neg h]
        have hcond : ¬(c = '/' ∧ (linePassAux false rest).head? = some '/') := by
          intro hc
          rcases linePassAux_false_head rest with hh | hh | hh
          · rw [hh] at hc
            cases hc.2
          · rw [hh] at hc
            exact h ⟨hc.1, hc.2⟩
          · rw [hh] at hc
            have := Option.some.inj hc.2
            exact absurd this (by decide)
        rw [hasPair, if_neg hcond]
        exact ih false

/-- Helper: the line pass is the identity on texts without `//`. -/
theorem linePassAux_id (t : List Char) (h : hasPair '/' '/' t = false) :
    linePassAux false t = t := by
  induction t with
  | nil => rfl
  | cons c rest ih =>
    obtain ⟨hc, hrest⟩ := hasPair_cons_elim h
    rw [linePassAux, if_neg hc, ih hrest]

/-- Helper: the line pass is idempotent. -/
theorem linePass_idem (t : List Char) : linePass (linePass t) = linePass t :=
  linePassAux_id _ (linePassAux_noLC false t)

/-- Helper: the line pass cannot manufacture a block-comment opener:
deleting a comment joins its neighbour to a newline, never to a `*`. -/
theorem linePassAux_noOpen (mode : Bool) (t : List Char)
    (h : hasPair '/' '*' t = false) :
    hasPair '/' '*' (linePassAux mode t) = false := by
  induction t generalizing mode with
  | nil => cases mode <;> simp [linePassAux, hasPair]
  | cons c rest ih =>
    obtain ⟨hhead, hrest⟩ := hasPair_cons_elim h
    cases mode with
    | true =>
      by_cases hc : c = '\n'
      · rw [linePassAux, if_pos hc]
        have hcond : ¬('\n' = '/' ∧ (linePassAux false rest).head? = some '*') := by
          intro hx
          exact absurd hx.1 (by decide)
        rw [hasPair, if_neg hcond]
        exact ih false hrest
      · rw [linePassAux, if_neg hc]
        exact ih true hrest
    | false =>
      by_cases hc : c = '/' ∧ rest.head? = some '/'
      · rw [linePassAux, if_pos hc]
        exact ih true hrest
      · rw [linePassAux, if_neg hc]
        have hcond : ¬(c = '/' ∧ (linePassAux false rest).head? = some '*') := by
          intro hx
          rcases linePassAux_false_head rest with hh | hh | hh
          · rw [hh] at hx
            cases hx.2
          · rw [hh] at hx
            exact hhead ⟨hx.1, hx.2⟩
          · rw [hh] at hx
            have := Option.some.inj hx.2
            exact absurd this (by decide)
        rw [hasPair, if_neg hcond]
        exact ih false hrest

/-- Helper: the block pass is the identity on texts without an opener
(any fuel; exhausted fuel is also the identity). -/
theorem blockPassAux_id (fuel : Nat) (t : List Char)
    (h : hasPair '/' '*' t = false) : blockPassAux fuel t = t := by
  induction fuel generalizing t with
  | zero => rfl
  | succ n ih =>
    cases t with
    | nil => rfl
    | cons c rest =>
      obtain ⟨hc, hrest⟩ := hasPair_cons_elim h
      rw [blockPassAux, if_neg hc, ih rest hrest]

/-- Counterexample to claim C9: on the text
`//*z*/* module m(); endmodule */` — a single line whose entire content
is a line comment — the scan reports a module definition `m`: the block
pass consumes `/\x2az\x2a/` out of the line comment, splicing the
leading `//` and the following `\x2a` into a new block comment that
shields the definition from the line pass.  Scanning the same text with
its comments removed finds nothing, so the scan is not invariant under
comment stripping and comment contents do contribute matches. -/
theorem strip_invariance_counterexample :
    parse_verilog_text cexText ≠
      parse_verilog_text (strip_comments cexText) ∧
    parse_verilog_text cexText = [("m".toList, " ".toList, [])] ∧
    parse_verilog_text (strip_comments cexText) = [] := by
  refine ⟨by decide, by decide, by decide⟩

/-- Claim C9 as amended: block comments are stripped in one left-to-right
pass, then line comments, and matching runs on the stripped text; the
scan is invariant under comment stripping for every text with no
block-comment opener `/\x2a` (where stripping is idempotent), but not in
general, because removing a block comment can splice new comment
delimiters together. -/
theorem strip_comments_invariance (t : List Char)
    (h : hasPair '/' '*' t = false) :
    strip_comments (strip_comments t) = strip_comments t ∧
    parse_verilog_text (strip_comments t) = parse_verilog_text t := by
  have h1 : blockPass t = t := blockPassAux_id _ t h
  have hstrip : strip_comments t = linePass t := by
    unfold strip_comments
    rw [h1]
  have hlpopen : hasPair '/' '*' (linePass t) = false :=
    linePassAux_noOpen false t h
  have h2 : blockPass (linePass t) = linePass t := blockPassAux_id _ _ hlpopen
  have hidem : strip_comments (strip_comments t) = strip_comments t := by
    rw [hstrip]
    unfold strip_comments
    rw [h2]
    rw [show linePass (linePass t) = linePass t from linePass_idem t]
  refine ⟨hidem, ?_⟩
  unfold parse_verilog_text
  rw [hidem]

/-- Witness for the amended C9: a text with a line comment and no block
comment scans identically before and after stripping. -/
theorem strip_comments_invariance_witness :
    strip_comments (strip_comments plainText) = strip_comments plainText ∧
    parse_verilog_text (strip_comments plainText) =
      parse_verilog_text plainText := by
  exact strip_comments_invariance plainText (by decide)
